import Mathlib

/-!
Verification of the commercial_formatter record-normalization pipeline.

The Python sources (formatters.py, processor.py, choices.py, decisions.py)
are shallowly embedded below: strings become `List Char`, Python dicts become
insertion-ordered association lists, interactive `input()` calls consume a
finite list of canned responses, and the persisted choice store is threaded
explicitly.  All definitions are translated from the source files; the only
definitions written from the specification text are marked as such in their
doc comments.
-/

namespace CommFmt


/-- Python strings are modelled as lists of characters. -/
abbrev Str := List Char

/-- Shorthand: the character list of a string literal. -/
def S (s : String) : Str := s.toList

/-- Whitespace characters recognized by Python `str.strip()` (ASCII subset:
space, tab, newline, carriage return, vertical tab, form feed). -/
def isWs (c : Char) : Bool :=
  c.toNat = 32 || c.toNat = 9 || c.toNat = 10 || c.toNat = 13 ||
    c.toNat = 11 || c.toNat = 12

/-- Python `s.strip()`: drop leading and trailing whitespace. -/
def pyStrip (s : Str) : Str :=
  ((s.dropWhile isWs).reverse.dropWhile isWs).reverse

/-- Python `s.lower()` (ASCII case folding, adequate for this domain). -/
def pyLower (s : Str) : Str := s.map Char.toLower

/-- Python `s.split(sep)` for a one-character separator: split on every
occurrence, keeping empty pieces (`"".split(sep) == [""]`). -/
def splitChar (sep : Char) : Str → List Str
  | [] => [[]]
  | c :: cs =>
    if c = sep then [] :: splitChar sep cs
    else
      match splitChar sep cs with
      | [] => [[c]]
      | t :: ts => (c :: t) :: ts

/-- Python `sep.join(parts)` for a one-character separator. -/
def joinChar (sep : Char) : List Str → Str
  | [] => []
  | [x] => x
  | x :: xs => x ++ sep :: joinChar sep xs

/-- First-match lookup in an association list (Python `dict` read). -/
def dictGet {α β : Type} [DecidableEq α] (k : α) : List (α × β) → Option β
  | [] => none
  | (k', v) :: t => if k = k' then some v else dictGet k t

/-- Python `dict` write: overwrite in place if the key exists, append
at the end otherwise (insertion-ordered semantics). -/
def dictInsert {α β : Type} [DecidableEq α] (k : α) (v : β) :
    List (α × β) → List (α × β)
  | [] => [(k, v)]
  | (k', v') :: t =>
    if k = k' then (k, v) :: t else (k', v') :: dictInsert k v t

/-- Value of an ASCII digit character. -/
def digitVal (c : Char) : Nat := c.toNat - 48

/-- Digit-run tail of Python `int(s)`: after the first digit, a digit or a
single underscore followed by a digit may appear; anything else fails. -/
def digitsTail : Str → Nat → Option Nat
  | [], acc => some acc
  | c :: cs, acc =>
    if c.isDigit then digitsTail cs (acc * 10 + digitVal c)
    else if c = '_' then
      match cs with
      | c2 :: cs2 =>
        if c2.isDigit then digitsTail cs2 (acc * 10 + digitVal c2) else none
      | [] => none
    else none

/-- A nonempty digit run starting with a digit (underscore rules as in Python). -/
def digitRun : Str → Option Nat
  | [] => none
  | c :: cs => if c.isDigit then digitsTail cs (digitVal c) else none

/-- Python `int(s)`: strip whitespace, optional sign, nonempty digit run;
`none` models a raised `ValueError`. -/
def pyInt (s : Str) : Option Int :=
  match pyStrip s with
  | '+' :: rest => (digitRun rest).map Int.ofNat
  | '-' :: rest => (digitRun rest).map (fun n => -(n : Int))
  | t => (digitRun t).map Int.ofNat

/-- ASCII digit character of a value below ten. -/
def digitChar (n : Nat) : Char := Char.ofNat (48 + n)

/-- Helper for `natDigits`: fuel-driven decimal rendering. -/
def natDigitsAux : Nat → Nat → Str
  | 0, _ => []
  | fuel + 1, n =>
    if n < 10 then [digitChar n]
    else natDigitsAux fuel (n / 10) ++ [digitChar (n % 10)]

/-- Decimal rendering of a natural number (as Python `str(n)` for `n ≥ 0`). -/
def natDigits (n : Nat) : Str := natDigitsAux (n + 1) n

/-- Python `f-string` formatting `{n:02d}` for a nonnegative value. -/
def pad2 (n : Nat) : Str :=
  if n < 10 then '0' :: natDigits n else natDigits n

/-- Python slice `s[a:b]`. -/
def pySlice (a b : Nat) (s : Str) : Str := (s.drop a).take (b - a)

/-! ## formatters.py -/

/-- `FieldFormatter.format_time` (formatters.py): a 6-character all-digit
time `HHMMSS` becomes `HH:MM:SS`; any other input is returned unchanged. -/
def format_time (t : Str) : Str :=
  if t.length = 6 && t.all Char.isDigit then
    pySlice 0 2 t ++ ':' :: pySlice 2 4 t ++ ':' :: pySlice 4 6 t
  else t

/-- `format_time_field` (processor.py): like `format_time` but the source
checks only the length, not that the characters are digits. -/
def format_time_field (t : Str) : Str :=
  if t.length = 6 then
    pySlice 0 2 t ++ ':' :: pySlice 2 4 t ++ ':' :: pySlice 4 6 t
  else t

/-- `format_date_field` (processor.py) / `FieldFormatter.format_date`:
normalize a date to `DD-MM-YYYY`, returning unrecognized input unchanged. -/
def format_date_field (s : Str) : Str :=
  let d := pyStrip s
  if d.length = 6 && d.all Char.isDigit then
    let yy := pySlice 0 2 d
    let mm := pySlice 2 4 d
    let dd := pySlice 4 6 d
    let year := if ((digitRun yy).getD 0) < 50 then '2' :: '0' :: yy else '1' :: '9' :: yy
    dd ++ '-' :: mm ++ '-' :: year
  else if d.length = 8 && d.all Char.isDigit then
    pySlice 0 2 d ++ '-' :: pySlice 2 4 d ++ '-' :: pySlice 4 8 d
  else if d.length = 10 && d.getD 4 ' ' = '-' && d.getD 7 ' ' = '-' then
    match splitChar '-' d with
    | [yyyy, mm, dd] => if yyyy.length = 4 then dd ++ '-' :: mm ++ '-' :: yyyy else d
    | _ => d
  else if d.length = 10 && d.getD 2 ' ' = '.' && d.getD 5 ' ' = '.' then
    d.map (fun c => if c = '.' then '-' else c)
  else d

/-- `fix_overflow_playing_time` (processor.py) / `FieldFormatter.format_duration`:
correct a day-overflow playing time `MM:SS` when the minutes reach the
configured threshold; fall back to the input on any parse failure. -/
def fix_overflow_playing_time (threshold : Int) (pt : Str) : Str :=
  if ':' ∈ pt then
    match splitChar ':' pt with
    | p0 :: p1 :: _ =>
      match pyInt p0, pyInt p1 with
      | some m, some s =>
        if m < threshold then pt
        else
          let total : Int := m * 60 + s
          let correct : Int := 86400 - total
          if correct < 0 then pt
          else pad2 (correct.toNat / 60) ++ ':' :: pad2 (correct.toNat % 60)
      | _, _ => pt
    | _ => pt
  else pt

/-- `get_playing_time_minutes` (processor.py) / `FieldFormatter.get_duration_minutes`:
the first colon-delimited component as an integer, or `none`. -/
def get_playing_time_minutes (pt : Str) : Option Int :=
  if ':' ∈ pt then
    match splitChar ':' pt with
    | p0 :: _ :: _ => pyInt p0
    | _ => none
  else none

/-! ## Claim C7: fixOverflowDuration computes exactly the specified function -/

/-- Modelled from the spec: `fixOverflowDuration` transcribed from the claim's
own wording (first two colon-delimited integer parts; below-threshold no-op;
`corrected = 86400 - total_seconds`; negative guard; zero-padded re-rendering;
any unparseable input returned unchanged).  This is the spec-side definition,
to be compared with the source embedding `fix_overflow_playing_time`. -/
def fixOverflowDurationSpec (threshold : Int) (s : Str) : Str :=
  match splitChar ':' s with
  | p0 :: p1 :: _ =>
    match pyInt p0, pyInt p1 with
    | some m, some sec =>
      if m < threshold then s
      else
        let corrected : Int := 86400 - (m * 60 + sec)
        if corrected < 0 then s
        else pad2 (corrected.toNat / 60) ++ ':' :: pad2 (corrected.toNat % 60)
    | _, _ => s
  | _ => s

/-! ## choices.py: ChoicesManager -/

/-- Actions for the long-playing-time review (accept / reject / edit). -/
inductive PTAction where
  | accept
  | reject
  | edit
  deriving DecidableEq, Repr

/-- Actions for the artist/title split review (fix / skip / reject). -/
inductive ATAction where
  | fix
  | skip
  | reject
  deriving DecidableEq, Repr

/-- The `long_playing_times` table: fingerprint to (action, optional edited time). -/
abbrev PTStore := List (Str × (PTAction × Option Str))

/-- The `artist_title_fixes` table: fingerprint to action. -/
abbrev ATStore := List (Str × ATAction)

/-- `ChoicesManager._make_key` (choices.py): join title and artist with the
literal separator `"|||"`. -/
def make_key (title artist : Str) : Str :=
  title ++ '|' :: '|' :: '|' :: artist

/-- `ChoicesManager.get_playing_time_choice` (choices.py): look up the
remembered decision under `_make_key(title, artist)`; note that the `time`
argument is not part of the lookup key. -/
def get_playing_time_choice (enabled : Bool) (store : PTStore)
    (title artist time : Str) : Option PTAction × Option Str :=
  if enabled then
    match dictGet (make_key title artist) store with
    | none => (none, none)
    | some (a, t) => (some a, t)
  else (none, none)

/-- `ChoicesManager.remember_playing_time_choice` (choices.py): persist a
decision under `_make_key(title, artist)`; an edit with a nonempty time keeps
the time, everything else stores the bare action. -/
def remember_playing_time_choice (enabled : Bool) (store : PTStore)
    (title artist time : Str) (action : PTAction) (edited_time : Option Str) :
    PTStore :=
  if enabled then
    match action, edited_time with
    | .edit, some t =>
      if t = [] then dictInsert (make_key title artist) (PTAction.edit, none) store
      else dictInsert (make_key title artist) (PTAction.edit, some t) store
    | _, _ => dictInsert (make_key title artist) (action, none) store
  else store

/-- `ChoicesManager.get_artist_title_choice` (choices.py). -/
def get_artist_title_choice (enabled : Bool) (store : ATStore)
    (title artist : Str) : Option ATAction :=
  if enabled then dictGet (make_key title artist) store else none

/-- `ChoicesManager.remember_artist_title_choice` (choices.py). -/
def remember_artist_title_choice (enabled : Bool) (store : ATStore)
    (title artist : Str) (action : ATAction) : ATStore :=
  if enabled then dictInsert (make_key title artist) action store else store

/-! ## processor.py: the artist/title split fix -/

/-- Decides whether `p` starts `s`. -/
def isPre : Str → Str → Bool
  | [], _ => true
  | _ :: _, [] => false
  | a :: as, b :: bs => if a = b then isPre as bs else false

/-- Python `s.split(pat, 1)` succeeding: the part before the first occurrence
of `pat` and the remainder after it, or `none` when `pat` does not occur. -/
def splitFirst (pat : Str) : Str → Option (Str × Str)
  | [] => none
  | c :: cs =>
    if isPre pat (c :: cs) then some ([], (c :: cs).drop pat.length)
    else (splitFirst pat cs).map (fun pr => (c :: pr.1, pr.2))

/-- Python `pat in s` (substring containment). -/
def strContains (pat : Str) : Str → Bool
  | [] => isPre pat []
  | c :: cs => isPre pat (c :: cs) || strContains pat cs

/-- The literal `" - "` separator of the artist/title split detector. -/
def dashPat : Str := [' ', '-', ' ']

/-- The fields-level fix applied by `read_files` (processor.py, apply-fixes
loop): the title field becomes the remainder after the first `" - "`, then the
artist field gets `"-<head>"` appended; a line whose title has no `" - "` is
returned unchanged (the source never reaches that case). -/
def applyATFixFields (title_idx artist_idx : Nat) (fields : List Str) :
    List Str :=
  match splitFirst dashPat (fields.getD title_idx []) with
  | some (p, r) =>
    let f1 := fields.set title_idx r
    f1.set artist_idx (f1.getD artist_idx [] ++ '-' :: p)
  | none => fields

/-! ## processor.py: check_long_playing_times -/

/-- Normalized user response: Python `input(...).strip().lower()`. -/
def normResp (s : Str) : Str := pyLower (pyStrip s)

/-- The two interactive prompts of the long-playing-time review. -/
inductive PTEvent where
  | base
  | timeEdit
  deriving DecidableEq, Repr

/-- Outcome of the base accept/reject/edit prompt loop. -/
inductive PTRes where
  | accept
  | reject
  | edit (t : Str)
  deriving DecidableEq, Repr

/-- Validation of an edited time (processor.py, edit branch): a colon must be
present and the first two colon-delimited parts must parse as integers. -/
def validTime (t : Str) : Bool :=
  if ':' ∈ t then
    match splitChar ':' t with
    | p0 :: p1 :: _ => (pyInt p0).isSome && (pyInt p1).isSome
    | _ => false
  else false

/-- The `while True` prompt loop of `check_long_playing_times` (processor.py):
consume canned responses until a valid decision is reached, recording every
`input()` call as a prompt event.  An invalid base response loops back to the
base prompt; an invalid edited time also loops back to the base prompt (the
source's `while True` restarts from the top). -/
def ptPromptLoop : List Str → Option (PTRes × List Str) × List PTEvent
  | [] => (none, [])
  | resp :: rest =>
    let r := normResp resp
    if r = S "a" ∨ r = S "accept" ∨ r = [] then (some (.accept, rest), [.base])
    else if r = S "r" ∨ r = S "reject" then (some (.reject, rest), [.base])
    else if r = S "e" ∨ r = S "edit" then
      match rest with
      | [] => (none, [.base, .timeEdit])
      | t :: rest2 =>
        let tv := pyStrip t
        if validTime tv then (some (.edit tv, rest2), [.base, .timeEdit])
        else
          let next := ptPromptLoop rest2
          (next.1, .base :: .timeEdit :: next.2)
    else
      let next := ptPromptLoop rest
      (next.1, .base :: next.2)

/-- Append an index to a key's list in an insertion-ordered dict of groups. -/
def dictAppendIdx {K : Type} [DecidableEq K] (k : K) (i : Nat)
    (m : List (K × List Nat)) : List (K × List Nat) :=
  dictInsert k ((dictGet k m).getD [] ++ [i]) m

/-- The shared grouping shape of the anomaly detectors: scan the lines in
order and collect `{key: [indices]}` in insertion order. -/
def groupIssues {K : Type} [DecidableEq K] (keyOf : Str → Option K)
    (lines : List Str) : List (K × List Nat) :=
  lines.enum.foldl
    (fun acc p =>
      match keyOf p.2 with
      | some k => dictAppendIdx k p.1 acc
      | none => acc)
    []

/-- The candidate filter of `check_long_playing_times` (processor.py): skip
blank lines and short rows, apply the overflow fix to the duration field, and
flag the line when the fixed duration's minutes reach the long threshold.
The key is `(title, artist, corrected duration)`. -/
def ptIssueKey (overThr longThr : Int) (ti ai di : Nat) (line : Str) :
    Option (Str × Str × Str) :=
  if pyStrip line = [] then none
  else
    let fields := splitChar ';' line
    if fields.length ≤ max ti (max ai di) then none
    else
      let pt := fix_overflow_playing_time overThr (fields.getD di [])
      match get_playing_time_minutes pt with
      | some m =>
        if longThr ≤ m then some (fields.getD ti [], fields.getD ai [], pt)
        else none
      | none => none

/-- State threaded through the long-playing-time review. -/
structure PTState where
  lines : List Str
  rejects : List Nat
  store : PTStore
  responses : List Str
  sessions : Nat
  aborted : Bool
  deriving DecidableEq, Repr

/-- Rewrite the duration field of one line (processor.py, edit application):
split on `';'`, overwrite the field if the row is long enough, rejoin. -/
def setTimeField (di : Nat) (t : Str) (line : Str) : Str :=
  let fields := splitChar ';' line
  if di < fields.length then joinChar ';' (fields.set di t) else line

/-- Apply an edited time to every index of an issue, in order. -/
def applyEditAll (di : Nat) (t : Str) (indices : List Nat)
    (lines : List Str) : List Str :=
  indices.foldl (fun ls i => ls.set i (setTimeField di t (ls.getD i []))) lines

/-- One iteration of the issue loop of `check_long_playing_times`
(processor.py): recall a remembered decision and auto-apply it without
prompting, or run the interactive prompt loop, remember the outcome and
apply it.  Exhausted canned responses abort the remaining processing. -/
def ptProcessIssue (di : Nat) (enabled : Bool) (st : PTState)
    (issue : (Str × Str × Str) × List Nat) : PTState :=
  if st.aborted then st
  else
    let title := issue.1.1
    let artist := issue.1.2.1
    let ptime := issue.1.2.2
    let indices := issue.2
    match get_playing_time_choice enabled st.store title artist ptime with
    | (some a, rt) =>
      match a, rt with
      | .accept, _ => st
      | .reject, _ => { st with rejects := st.rejects ++ indices }
      | .edit, some t => { st with lines := applyEditAll di t indices st.lines }
      | .edit, none => st
    | (none, _) =>
      match (ptPromptLoop st.responses).1 with
      | none =>
        { st with sessions := st.sessions + 1, responses := [], aborted := true }
      | some (res, rest) =>
        match res with
        | .accept =>
          { st with
            sessions := st.sessions + 1
            responses := rest
            store := remember_playing_time_choice enabled st.store title artist
              ptime .accept none }
        | .reject =>
          { st with
            sessions := st.sessions + 1
            responses := rest
            rejects := st.rejects ++ indices
            store := remember_playing_time_choice enabled st.store title artist
              ptime .reject none }
        | .edit t =>
          { st with
            sessions := st.sessions + 1
            responses := rest
            lines := applyEditAll di t indices st.lines
            store := remember_playing_time_choice enabled st.store title artist
              ptime .edit (some t) }

/-- `check_long_playing_times` (processor.py): group the flagged lines by
`(title, artist, corrected duration)` and run the decision loop over the
groups. -/
def check_long_playing_times (overThr longThr : Int) (ti ai di : Nat)
    (enabled : Bool) (store : PTStore) (responses : List Str)
    (lines : List Str) : PTState :=
  (groupIssues (ptIssueKey overThr longThr ti ai di) lines).foldl
    (ptProcessIssue di enabled)
    ⟨lines, [], store, responses, 0, false⟩

/-! ## decisions.py: DecisionConfig and DecisionManager -/

/-- `Option` (decisions.py): one labeled decision option. -/
structure DOption where
  key : Str
  aliases : List Str
  label : Str
  action : Str
  is_default : Bool
  deriving DecidableEq, Repr

/-- `DecisionConfig` (decisions.py). -/
structure DecisionConfig where
  name : Str
  options : List DOption
  deriving DecidableEq, Repr

/-- `DecisionConfig.parse_response` (decisions.py): empty input selects the
default option; otherwise the response must match an option's key or one of
its aliases; anything else yields `none`. -/
def parse_response (cfg : DecisionConfig) (resp : Str) : Option Str :=
  let r := normResp resp
  if r = [] then
    match cfg.options.find? (fun o => o.is_default) with
    | some o => some o.action
    | none => none
  else
    match cfg.options.find? (fun o => decide (r = o.key) || decide (r ∈ o.aliases)) with
    | some o => some o.action
    | none => none

/-- `DecisionManager._prompt_user` (decisions.py): consume responses until
one parses; an action whose extra-input handler signals a retry loops back to
the base prompt.  The handler models `extra_input_handler`: `none` is the
`False` retry signal, `some d` is collected extra data. -/
def prompt_user (cfg : DecisionConfig)
    (handler : Option (Str → Option (Option Str))) :
    List Str → Option (Str × Option Str × List Str)
  | [] => none
  | resp :: rest =>
    match parse_response cfg resp with
    | none => prompt_user cfg handler rest
    | some action =>
      match handler with
      | none => some (action, none, rest)
      | some h =>
        match h action with
        | none => prompt_user cfg handler rest
        | some d => some (action, d, rest)

/-- `ARTIST_TITLE_CONFIG` (decisions.py). -/
def ARTIST_TITLE_CONFIG : DecisionConfig :=
  ⟨S "artist_title",
    [⟨S "y", [S "yes"], S "Yes fix", S "fix", true⟩,
     ⟨S "n", [S "no"], S "No skip", S "skip", false⟩,
     ⟨S "x", [S "reject"], S "Reject", S "reject", false⟩]⟩

/-- `LONG_TIME_CONFIG` (decisions.py). -/
def LONG_TIME_CONFIG : DecisionConfig :=
  ⟨S "long_time",
    [⟨S "a", [S "accept"], S "Accept", S "accept", true⟩,
     ⟨S "r", [S "reject"], S "Reject", S "reject", false⟩,
     ⟨S "e", [S "edit"], S "Edit", S "edit", false⟩]⟩

/-- `DUPLICATE_CONFIG` (decisions.py). -/
def DUPLICATE_CONFIG : DecisionConfig :=
  ⟨S "duplicate",
    [⟨S "k", [S "keep"], S "Keep all", S "keep", true⟩,
     ⟨S "r", [S "reject"], S "Reject duplicates", S "reject", false⟩]⟩

/-! ## processor.py: the artist/title split section of read_files -/

/-- The candidate filter of the artist/title split detector (read_files,
processor.py): skip blank lines and stopword matches; flag rows long enough
whose title field contains `" - "`.  The key is the raw (title, artist). -/
def atIssueKey (sep : Char) (ti ai : Nat) (stop : Str → Bool) (line : Str) :
    Option (Str × Str) :=
  if pyStrip line = [] then none
  else if stop (pyLower line) then none
  else
    let fields := splitChar sep line
    if decide (max ti ai < fields.length) && strContains dashPat (fields.getD ti []) then
      some (fields.getD ti [], fields.getD ai [])
    else none

/-- The response parsing of the artist/title prompt (read_files,
processor.py): `y`/`yes`/empty fixes, `x`/`reject` rejects, and any other
input — valid `n`/`no` or not — is treated as skip. -/
def parseATResponse (resp : Str) : ATAction :=
  let r := normResp resp
  if r = S "y" ∨ r = S "yes" ∨ r = [] then .fix
  else if r = S "x" ∨ r = S "reject" then .reject
  else .skip

/-- State threaded through the artist/title split section. -/
structure ATState where
  toFix : List Nat
  rejects : List Nat
  store : ATStore
  responses : List Str
  prompts : Nat
  aborted : Bool
  deriving DecidableEq, Repr

/-- One iteration of the artist/title issue loop (read_files, processor.py):
recall a remembered decision, or consume exactly one response — there is no
re-prompting — remember the parsed action and record it. -/
def atProcessIssue (enabled : Bool) (st : ATState)
    (issue : (Str × Str) × List Nat) : ATState :=
  if st.aborted then st
  else
    let title := issue.1.1
    let artist := issue.1.2
    let indices := issue.2
    match get_artist_title_choice enabled st.store title artist with
    | some .fix => { st with toFix := st.toFix ++ indices }
    | some .reject => { st with rejects := st.rejects ++ indices }
    | some .skip => st
    | none =>
      match st.responses with
      | [] => { st with aborted := true, prompts := st.prompts + 1 }
      | resp :: rest =>
        match parseATResponse resp with
        | .fix =>
          { st with
            toFix := st.toFix ++ indices
            responses := rest
            prompts := st.prompts + 1
            store := remember_artist_title_choice enabled st.store title artist .fix }
        | .reject =>
          { st with
            rejects := st.rejects ++ indices
            responses := rest
            prompts := st.prompts + 1
            store := remember_artist_title_choice enabled st.store title artist .reject }
        | .skip =>
          { st with
            responses := rest
            prompts := st.prompts + 1
            store := remember_artist_title_choice enabled st.store title artist .skip }

/-- The apply-fixes loop of read_files (processor.py): rewrite each flagged
line through the fields-level fix. -/
def applyFixes (sep : Char) (ti ai : Nat) (toFix : List Nat)
    (lines : List Str) : List Str :=
  toFix.foldl
    (fun ls i =>
      ls.set i (joinChar sep (applyATFixFields ti ai (splitChar sep (ls.getD i [])))))
    lines

/-- The artist/title split section of `read_files` (processor.py): group the
flagged lines, run the decision loop, then apply the collected fixes. -/
def artist_title_section (sep : Char) (ti ai : Nat) (stop : Str → Bool)
    (enabled : Bool) (store : ATStore) (responses : List Str)
    (lines : List Str) : List Str × ATState :=
  let final := (groupIssues (atIssueKey sep ti ai stop) lines).foldl
    (atProcessIssue enabled) ⟨[], [], store, responses, 0, false⟩
  (applyFixes sep ti ai final.toFix lines, final)

/-- Response parsing of the duplicates prompt (check_duplicates,
processor.py): `r`/`reject` rejects the duplicates, anything else keeps. -/
def parseDupResponse (resp : Str) : Bool :=
  decide (normResp resp = S "r") || decide (normResp resp = S "reject")

/-! ## processor.py: check_duplicates -/

/-- The duplicate policy from settings (`settings.duplicates.action`). -/
inductive DupAction where
  | prompt
  | keep
  | reject
  deriving DecidableEq, Repr

/-- The duplicate key of one line (check_duplicates, processor.py): skip
blank lines and short rows; the key is the stripped lowercased title, the
stripped lowercased artist and the stripped date. -/
def dupLineKey (ti ai di : Nat) (line : Str) : Option (Str × Str × Str) :=
  if pyStrip line = [] then none
  else
    let fields := splitChar ';' line
    if fields.length ≤ max ti (max ai di) then none
    else
      some (pyLower (pyStrip (fields.getD ti [])),
        pyLower (pyStrip (fields.getD ai [])),
        pyStrip (fields.getD di []))

/-- State of the duplicate scan: first occurrence per key, and the groups of
keys seen more than once. -/
structure DupState where
  seen : List ((Str × Str × Str) × Nat)
  dups : List ((Str × Str × Str) × List Nat)
  deriving DecidableEq, Repr

/-- One step of the duplicate scan (check_duplicates, processor.py): a key
already seen opens (or extends) its duplicate group with the current index;
a fresh key records its first index. -/
def dupScanStep (ti ai di : Nat) (st : DupState) (p : Nat × Str) : DupState :=
  match dupLineKey ti ai di p.2 with
  | none => st
  | some k =>
    match dictGet k st.seen with
    | some first =>
      { st with dups := dictInsert k ((dictGet k st.dups).getD [first] ++ [p.1]) st.dups }
    | none => { st with seen := dictInsert k p.1 st.seen }

/-- `check_duplicates` (processor.py): scan for duplicate `(title, artist,
date)` keys, then apply the configured policy; under `reject`, every group
keeps its first occurrence and rejects the rest; under `prompt`, one response
is consumed per group (and any unrecognized response keeps the group). The
line list itself is returned unmodified. -/
def check_duplicates (enabled : Bool) (action : DupAction) (ti ai di : Nat)
    (responses : List Str) (lines : List Str) : List Str × List Nat :=
  if ¬ enabled then (lines, [])
  else
    let st := lines.enum.foldl (dupScanStep ti ai di) ⟨[], []⟩
    if st.dups = [] then (lines, [])
    else
      match action with
      | .reject => (lines, st.dups.foldl (fun acc kl => acc ++ kl.2.drop 1) [])
      | .keep => (lines, [])
      | .prompt =>
        (lines,
          (st.dups.foldl
            (fun (acc : List Nat × List Str) kl =>
              match acc.2 with
              | [] => acc
              | resp :: rest =>
                if parseDupResponse resp then (acc.1 ++ kl.2.drop 1, rest)
                else (acc.1, rest))
            ([], responses)).1)

/-- The duplicate key of the line at an index. -/
def dupKeyAt (ti ai di : Nat) (lines : List Str) (i : Nat) :
    Option (Str × Str × Str) :=
  dupLineKey ti ai di (lines.getD i [])

/-- All indices below `n` holding a given duplicate key, in ascending order. -/
def dupOcc (ti ai di : Nat) (lines : List Str) (k : Str × Str × Str) (n : Nat) :
    List Nat :=
  (List.range n).filter (fun i => decide (dupKeyAt ti ai di lines i = some k))

/-- The scan invariant: after processing the first `n` lines, `seen` holds
the first occurrence of every key, and `dups` holds exactly the full
ascending occurrence list of every key occurring at least twice. -/
def DupInv (ti ai di : Nat) (lines : List Str) (n : Nat) (st : DupState) : Prop :=
  ((st.dups.map Prod.fst).Nodup) ∧
  (∀ k, dictGet k st.seen = (dupOcc ti ai di lines k n).head?) ∧
  (∀ k, dictGet k st.dups =
    if 2 ≤ (dupOcc ti ai di lines k n).length then some (dupOcc ti ai di lines k n)
    else none)

/-! ## The multiple-years filter (spec §4.5) -/

/-- Modelled from the spec: the multiple-years filter is absent from the
provided sources (no year-filtering code exists under src/); the year of a
line is extracted from its date field after normalization through
`normalizeDate` (the embedded `format_date_field`), as the third component of
the canonical `DD-MM-YYYY` form. -/
def yearOfLine (di : Nat) (line : Str) : Option Str :=
  match splitChar '-' (format_date_field ((splitChar ';' line).getD di [])) with
  | [_, _, yyyy] => some yyyy
  | _ => none

/-- Modelled from the spec: the distinct years present among the lines, in
order of first appearance (used to decide whether the filter prompts). -/
def distinctYears (di : Nat) (lines : List Str) : List Str :=
  lines.foldl
    (fun acc l =>
      match yearOfLine di l with
      | some y => if y ∈ acc then acc else acc ++ [y]
      | none => acc)
    []

/-- The user's choice at the multiple-years prompt. -/
inductive YearChoice where
  | keepAll
  | keepYear (y : Str)
  deriving DecidableEq, Repr

/-- Modelled from the spec: the retain-loop of the multiple-years filter —
walk the lines in order, keeping exactly those whose year matches the chosen
year; all other lines are physically removed from the list. -/
def multiYearFilter (di : Nat) (chosen : Str) (lines : List Str) : List Str :=
  lines.foldl
    (fun acc l => if yearOfLine di l = some chosen then acc ++ [l] else acc)
    []

/-- Modelled from the spec: the multiple-years check runs only when more than
one distinct year is present; keep-all leaves the lines untouched, a chosen
year filters the list. -/
def multiYearCheck (di : Nat) (choice : YearChoice) (lines : List Str) :
    List Str :=
  if (distinctYears di lines).length ≤ 1 then lines
  else
    match choice with
    | .keepAll => lines
    | .keepYear y => multiYearFilter di y lines

/-- Splitting a string that does not contain the separator yields it whole. -/
theorem splitChar_eq_single (sep : Char) (s : Str) (h : sep ∉ s) :
    splitChar sep s = [s] := by
  induction s with
  | nil => rfl
  | cons c cs ih =>
    have hc : c ≠ sep := fun e => h (e ▸ List.mem_cons_self c cs)
    have hcs : sep ∉ cs := fun e => h (List.mem_cons_of_mem c e)
    simp [splitChar, hc, ih hcs]

/-- A split with at least two pieces means the separator occurs in the input. -/
theorem mem_of_splitChar_two (sep : Char) (s : Str) (p0 p1 : Str) (rest : List Str)
    (h : splitChar sep s = p0 :: p1 :: rest) : sep ∈ s := by
  by_contra hmem
  rw [splitChar_eq_single sep s hmem] at h
  simp at h

/-! ## Claim C10: normalizeTime -/

/-- C10: `normalizeTime` (`FieldFormatter.format_time`) maps every string of
exactly 6 digits `HHMMSS` to `HH:MM:SS`, with colons inserted after positions
2 and 4, and returns every other input — including 6-character strings
containing a non-digit — unchanged. -/
theorem format_time_spec (t : Str) :
    (t.length = 6 → (∀ c ∈ t, c.isDigit) →
      ∃ h1 h2 m1 m2 s1 s2, t = [h1, h2, m1, m2, s1, s2] ∧
        format_time t = [h1, h2, ':', m1, m2, ':', s1, s2]) ∧
    (¬ (t.length = 6 ∧ ∀ c ∈ t, c.isDigit) → format_time t = t) := by
  constructor
  · intro hlen hdig
    match t, hlen with
    | [a, b, c, d, e, f], _ =>
      refine ⟨a, b, c, d, e, f, rfl, ?_⟩
      have hall : List.all [a, b, c, d, e, f] Char.isDigit = true := by
        simp only [List.all_eq_true]
        exact hdig
      simp [format_time, hall, pySlice]
  · intro hne
    unfold format_time
    rw [if_neg]
    intro hcond
    rw [Bool.and_eq_true] at hcond
    refine hne ⟨by simpa using hcond.1, ?_⟩
    intro c hc
    exact List.all_eq_true.mp hcond.2 c hc

/-- Witness for C10 at concrete inputs: the all-digit case and a 6-character
input containing a non-digit. -/
theorem format_time_spec_witness :
    format_time (S "12a456") = S "12a456" ∧ format_time (S "123456") = S "12:34:56" :=
  ⟨(format_time_spec (S "12a456")).2 (by decide), by decide⟩

/-- C7: the source's overflow fixer agrees with the claim's specification on
every threshold and every input string (in particular it never fails: inputs
with no colon, fewer than two parts or non-integer parts come back unchanged). -/
theorem fix_overflow_playing_time_eq_spec (threshold : Int) (s : Str) :
    fix_overflow_playing_time threshold s = fixOverflowDurationSpec threshold s := by
  by_cases hc : ':' ∈ s
  · unfold fix_overflow_playing_time fixOverflowDurationSpec
    rw [if_pos hc]
  · unfold fix_overflow_playing_time fixOverflowDurationSpec
    rw [if_neg hc, splitChar_eq_single ':' s hc]

/-! ## Claim C4: threshold bound on the corrected minutes -/

/-- Counterexample to C4 as stated: with configured threshold 10 the input
`"10:00"` has minutes 10 ≥ 10 and total seconds 600 ≤ 86400, yet the
corrected result is `"1430:00"`, whose minutes component 1430 is not
less than the threshold. -/
theorem fix_overflow_threshold_cex :
    fix_overflow_playing_time 10 (S "10:00") = S "1430:00" ∧
    get_playing_time_minutes (S "10:00") = some 10 ∧
    ¬ (10 : Int) < 10 ∧ ((10 * 60 + 0 : Int) ≤ 86400) ∧
    get_playing_time_minutes (S "1430:00") = some 1430 ∧
    ¬ (1430 : Int) < 10 := by decide

/-- C4 (amended): for a duration whose first two colon-delimited parts parse
as integers `m` (minutes) and `sec` (seconds): below the threshold the fixer
is a no-op; and when the threshold exceeds 720, `m ≥ threshold`, `sec ≥ 0`
and `m*60 + sec ≤ 86400`, the corrected result's minutes component is
strictly below the threshold. -/
theorem fix_overflow_threshold_bound (thr m sec : Int) (dur p0 p1 : Str)
    (rest : List Str)
    (hsplit : splitChar ':' dur = p0 :: p1 :: rest)
    (hm : pyInt p0 = some m) (hs : pyInt p1 = some sec) :
    (m < thr → fix_overflow_playing_time thr dur = dur) ∧
    (720 < thr → thr ≤ m → 0 ≤ sec → m * 60 + sec ≤ 86400 →
      ∃ cm cs : Nat, fix_overflow_playing_time thr dur = pad2 cm ++ ':' :: pad2 cs ∧
        (cm : Int) < thr) := by
  have hc : ':' ∈ dur := mem_of_splitChar_two ':' dur p0 p1 rest hsplit
  have heval : fix_overflow_playing_time thr dur =
      if m < thr then dur
      else if 86400 - (m * 60 + sec) < 0 then dur
      else pad2 ((86400 - (m * 60 + sec)).toNat / 60) ++ ':' ::
        pad2 ((86400 - (m * 60 + sec)).toNat % 60) := by
    unfold fix_overflow_playing_time
    rw [if_pos hc, hsplit]
    simp only [hm, hs]
  rw [heval]
  constructor
  · intro hlt
    rw [if_pos hlt]
  · intro h720 hge hsec htot
    rw [if_neg (by omega)]
    rw [if_neg (by omega)]
    refine ⟨(86400 - (m * 60 + sec)).toNat / 60, (86400 - (m * 60 + sec)).toNat % 60,
      rfl, ?_⟩
    have hnn : (0 : Int) ≤ 86400 - (m * 60 + sec) := by omega
    have hbound : (86400 - (m * 60 + sec)).toNat ≤ (86400 - 60 * thr).toNat := by
      omega
    have hq : (86400 - (m * 60 + sec)).toNat / 60 < thr.toNat := by
      have h1 : (86400 - (m * 60 + sec)).toNat / 60 ≤ (86400 - 60 * thr).toNat / 60 :=
        Nat.div_le_div_right hbound
    -- 86400 - 60*thr < 60*thr since thr > 720; hence the quotient is below thr
      have h2 : (86400 - 60 * thr).toNat / 60 < thr.toNat := by
        apply Nat.div_lt_iff_lt_mul (by norm_num) |>.mpr
        omega
      exact Nat.lt_of_le_of_lt h1 h2
    omega

/-- Witness for C4 (amended) at concrete inputs: threshold 800 corrects
`"800:00"` to a value with minutes below the threshold, and leaves `"10:00"`
unchanged. -/
theorem fix_overflow_threshold_bound_witness :
    (∃ cm cs : Nat,
      fix_overflow_playing_time 800 (S "800:00") = pad2 cm ++ ':' :: pad2 cs ∧
        (cm : Int) < 800) ∧
    fix_overflow_playing_time 800 (S "10:00") = S "10:00" :=
  ⟨(fix_overflow_threshold_bound 800 800 0 (S "800:00") (S "800") (S "00") []
      (by decide) (by decide) (by decide)).2 (by decide) (by decide) (by decide)
      (by decide),
   (fix_overflow_threshold_bound 800 10 0 (S "10:00") (S "10") (S "00") []
      (by decide) (by decide) (by decide)).1 (by decide)⟩

/-- Inserting a key then looking it up yields the inserted value. -/
theorem dictGet_dictInsert_self {α β : Type} [DecidableEq α] (k : α) (v : β)
    (l : List (α × β)) : dictGet k (dictInsert k v l) = some v := by
  induction l with
  | nil => simp [dictInsert, dictGet]
  | cons p t ih =>
    by_cases h : k = p.1
    · simp [dictInsert, dictGet, h]
    · simp [dictInsert, dictGet, h, ih]

/-- Looking up a different key is unaffected by an insertion. -/
theorem dictGet_dictInsert_ne {α β : Type} [DecidableEq α] (k k' : α) (v : β)
    (l : List (α × β)) (h : k ≠ k') : dictGet k (dictInsert k' v l) = dictGet k l := by
  induction l with
  | nil => simp [dictInsert, dictGet, h]
  | cons p t ih =>
    by_cases hp : k' = p.1
    · subst hp
      simp [dictInsert, dictGet, h]
    · by_cases hk : k = p.1
      · simp [dictInsert, dictGet, hp, hk]
      · simp [dictInsert, dictGet, hp, hk, ih]

/-! ## Claim C2: the playing-time fingerprint -/

/-- Counterexample to C2 as stated: the issue keys `("T", "A", "100:00")` and
`("T", "A", "200:00")` are distinct (they differ in the duration component),
yet a decision remembered for the first is recalled for the second, because
`_make_key` uses only the title and the artist. -/
theorem playing_time_fingerprint_cex :
    (S "100:00" ≠ S "200:00") ∧
    get_playing_time_choice true
      (remember_playing_time_choice true [] (S "T") (S "A") (S "100:00")
        PTAction.reject none)
      (S "T") (S "A") (S "200:00") = (some PTAction.reject, none) := by decide

/-- The `"|||"` fingerprint determines the title and artist when the titles
contain no `'|'` character. -/
theorem make_key_inj (t : Str) : ∀ t' a a' : Str, '|' ∉ t → '|' ∉ t' →
    make_key t a = make_key t' a' → t = t' ∧ a = a' := by
  induction t with
  | nil =>
    intro t' a a' _ ht' h
    cases t' with
    | nil =>
      refine ⟨rfl, ?_⟩
      simpa [make_key] using h
    | cons c cs =>
      exfalso
      simp only [make_key, List.nil_append, List.cons_append, List.cons.injEq] at h
      exact ht' (h.1 ▸ List.mem_cons_self c cs)
  | cons c cs ih =>
    intro t' a a' ht ht' h
    cases t' with
    | nil =>
      exfalso
      simp only [make_key, List.nil_append, List.cons_append, List.cons.injEq] at h
      exact ht (h.1.symm ▸ List.mem_cons_self c cs)
    | cons c' cs' =>
      simp only [make_key, List.cons_append, List.cons.injEq] at h
      have hcs : '|' ∉ cs := fun hm => ht (List.mem_cons_of_mem c hm)
      have hcs' : '|' ∉ cs' := fun hm => ht' (List.mem_cons_of_mem c' hm)
      obtain ⟨hts, has⟩ := ih cs' a a' hcs hcs' h.2
      exact ⟨by rw [h.1, hts], has⟩

/-- C2 (amended): the playing-time fingerprint is derived deterministically
from the title and the artist only — the duration component of the issue key
is not part of it, so a decision remembered for one key is recalled for every
key sharing its title and artist; the fingerprint separates any two keys
whose title components contain no `'|'` character and that differ in title
or artist. -/
theorem playing_time_fingerprint_amended :
    (∀ t a t' a' : Str, '|' ∉ t → '|' ∉ t' → make_key t a = make_key t' a' →
      t = t' ∧ a = a') ∧
    (∀ (store : PTStore) (t a time time' : Str) (act : PTAction),
      get_playing_time_choice true
        (remember_playing_time_choice true store t a time act none) t a time' =
        (some act, none)) := by
  constructor
  · intro t a t' a' ht ht' h
    exact make_key_inj t t' a a' ht ht' h
  · intro store t a time time' act
    cases act <;>
      simp [get_playing_time_choice, remember_playing_time_choice,
        dictGet_dictInsert_self]

/-- Witness for C2 (amended) at concrete inputs. -/
theorem playing_time_fingerprint_amended_witness :
    (S "Song", S "Band") = (S "Song", S "Band") ∧
    get_playing_time_choice true
      (remember_playing_time_choice true [] (S "Song") (S "Band") (S "99:00")
        PTAction.accept none)
      (S "Song") (S "Band") (S "33:00") = (some PTAction.accept, none) := by
  refine ⟨?_, playing_time_fingerprint_amended.2 [] (S "Song") (S "Band")
    (S "99:00") (S "33:00") PTAction.accept⟩
  have h := playing_time_fingerprint_amended.1 (S "Song") (S "Band") (S "Song")
    (S "Band") (by decide) (by decide) rfl
  rw [h.1, h.2]

/-- `isPre` means a prefix decomposition exists. -/
theorem isPre_iff (p : Str) : ∀ s : Str, isPre p s = true ↔ ∃ t, s = p ++ t := by
  induction p with
  | nil => intro s; simp [isPre]
  | cons a as ih =>
    intro s
    cases s with
    | nil => simp [isPre]
    | cons b bs =>
      by_cases hab : a = b
      · subst hab
        simp [isPre, ih bs]
      · simp only [isPre, if_neg hab, List.cons_append, List.cons.injEq]
        constructor
        · intro h; exact absurd h (by simp)
        · rintro ⟨t, hb, -⟩; exact absurd hb.symm hab

/-- Soundness of `splitFirst`: a successful split is a decomposition. -/
theorem splitFirst_sound (pat : Str) : ∀ s p r : Str,
    splitFirst pat s = some (p, r) → s = p ++ pat ++ r := by
  intro s
  induction s with
  | nil => intro p r h; simp [splitFirst] at h
  | cons c cs ih =>
    intro p r h
    unfold splitFirst at h
    by_cases hp : isPre pat (c :: cs) = true
    · rw [if_pos hp] at h
      simp only [Option.some.injEq, Prod.mk.injEq] at h
      obtain ⟨h1, h2⟩ := h
      obtain ⟨t, ht⟩ := (isPre_iff pat (c :: cs)).mp hp
      have hr : r = t := by rw [← h2, ht, List.drop_left]
      rw [ht, hr, ← h1]
      simp
    · rw [if_neg hp] at h
      cases hsp : splitFirst pat cs with
      | none => rw [hsp] at h; simp at h
      | some pr =>
        rw [hsp] at h
        simp only [Option.map_some', Option.some.injEq, Prod.mk.injEq] at h
        obtain ⟨h1, h2⟩ := h
        have hcs := ih pr.1 pr.2 (by rw [hsp])
        rw [← h1, ← h2]
        simp only [List.cons_append, List.cons.injEq, true_and]
        exact hcs

/-- Minimality of `splitFirst`: it splits at the first occurrence. -/
theorem splitFirst_min (pat : Str) : ∀ s p r : Str,
    splitFirst pat s = some (p, r) →
    ∀ p' r' : Str, s = p' ++ pat ++ r' → p.length ≤ p'.length := by
  intro s
  induction s with
  | nil => intro p r h; simp [splitFirst] at h
  | cons c cs ih =>
    intro p r h p' r' hdec
    unfold splitFirst at h
    by_cases hp : isPre pat (c :: cs) = true
    · rw [if_pos hp] at h
      simp only [Option.some.injEq, Prod.mk.injEq] at h
      rw [← h.1]
      simp
    · rw [if_neg hp] at h
      cases hsp : splitFirst pat cs with
      | none => rw [hsp] at h; simp at h
      | some pr =>
        rw [hsp] at h
        simp only [Option.map_some', Option.some.injEq, Prod.mk.injEq] at h
        cases p' with
        | nil =>
          exfalso
          apply hp
          rw [isPre_iff]
          exact ⟨r', by simpa using hdec⟩
        | cons c' ps' =>
          simp only [List.cons_append, List.cons.injEq] at hdec
          have hle := ih pr.1 pr.2 (by rw [hsp]) ps' r' hdec.2
          rw [← h.1]
          simpa using hle

/-! ## Claim C9: the artist/title split fix computation -/

/-- C9: for a title field containing `" - "`, the fix rewrites the title to
the remainder after the first `" - "` and the artist to the old artist, a
dash, and the part before it; the split really is at the first occurrence
(the prefix is shortest among all decompositions). -/
theorem artist_title_fix_spec (ti ai : Nat) (fields : List Str) (p r : Str)
    (hne : ti ≠ ai)
    (hsp : splitFirst dashPat (fields.getD ti []) = some (p, r)) :
    applyATFixFields ti ai fields =
      (fields.set ti r).set ai (fields.getD ai [] ++ '-' :: p) ∧
    fields.getD ti [] = p ++ dashPat ++ r ∧
    (∀ p' r' : Str, fields.getD ti [] = p' ++ dashPat ++ r' →
      p.length ≤ p'.length) := by
  refine ⟨?_, splitFirst_sound dashPat _ p r hsp, splitFirst_min dashPat _ p r hsp⟩
  unfold applyATFixFields
  rw [hsp]
  have hgd : (fields.set ti r).getD ai [] = fields.getD ai [] := by
    unfold List.getD
    rw [List.get?_set_ne r fields hne]
  dsimp only
  rw [hgd]

/-- Witness for C9: title `"Song - Radio Edit"` with artist `"Band"` yields
title `"Radio Edit"` and artist `"Band-Song"`. -/
theorem artist_title_fix_spec_witness :
    applyATFixFields 0 1 [S "Song - Radio Edit", S "Band"] =
      [S "Radio Edit", S "Band-Song"] := by
  have h := (artist_title_fix_spec 0 1 [S "Song - Radio Edit", S "Band"]
    (S "Song") (S "Radio Edit") (by decide) (by decide)).1
  rw [h]
  decide

/-! ## Claim C3: one prompt per unique key, zero prompts when remembered -/

/-- Keys present after a dict insertion. -/
theorem mem_keys_dictInsert {α β : Type} [DecidableEq α] (a k : α) (v : β)
    (l : List (α × β)) :
    a ∈ (dictInsert k v l).map Prod.fst ↔ a = k ∨ a ∈ l.map Prod.fst := by
  induction l with
  | nil => simp [dictInsert]
  | cons p t ih =>
    by_cases h : k = p.1
    · subst h
      simp [dictInsert, or_comm, or_assoc]
    · simp [dictInsert, h, ih]
      tauto

/-- Dict insertion preserves distinctness of the keys. -/
theorem keys_nodup_dictInsert {α β : Type} [DecidableEq α] (k : α) (v : β)
    (l : List (α × β)) (h : (l.map Prod.fst).Nodup) :
    ((dictInsert k v l).map Prod.fst).Nodup := by
  induction l with
  | nil => simp [dictInsert]
  | cons p t ih =>
    by_cases hk : k = p.1
    · subst hk
      simpa [dictInsert] using h
    · simp only [List.map_cons, List.nodup_cons] at h
      have ht := ih h.2
      simp only [dictInsert, if_neg hk, List.map_cons, List.nodup_cons]
      refine ⟨?_, ht⟩
      rw [mem_keys_dictInsert]
      rintro (h1 | h1)
      · exact hk (h1.symm)
      · exact h.1 h1

/-- The grouped issues of any detector have pairwise-distinct keys: the number
of issues equals the number of distinct anomaly keys among the lines. -/
theorem groupIssues_keys_nodup {K : Type} [DecidableEq K] (keyOf : Str → Option K)
    (lines : List Str) : ((groupIssues keyOf lines).map Prod.fst).Nodup := by
  unfold groupIssues
  generalize lines.enum = ps
  have h : ∀ (ps : List (Nat × Str)) (acc : List (K × List Nat)),
      (acc.map Prod.fst).Nodup →
      ((ps.foldl (fun acc p =>
          match keyOf p.2 with
          | some k => dictAppendIdx k p.1 acc
          | none => acc) acc).map Prod.fst).Nodup := by
    intro ps
    induction ps with
    | nil => intro acc h; simpa using h
    | cons p t ih =>
      intro acc hacc
      simp only [List.foldl_cons]
      cases hk : keyOf p.2 with
      | none => exact ih acc hacc
      | some k => exact ih _ (keys_nodup_dictInsert k _ acc hacc)
  exact h ps [] (by simp)

/-- A single issue step starts at most one interactive session. -/
theorem ptProcessIssue_sessions_le (di : Nat) (enabled : Bool) (st : PTState)
    (x : (Str × Str × Str) × List Nat) :
    (ptProcessIssue di enabled st x).sessions ≤ st.sessions + 1 := by
  rcases hg : get_playing_time_choice enabled st.store x.1.1 x.1.2.1 x.1.2.2 with ⟨a?, rt⟩
  unfold ptProcessIssue
  dsimp only
  rw [hg]
  repeat' split
  all_goals simp_arith

/-- A single issue step only adds reject indices. -/
theorem ptProcessIssue_rejects_mono (di : Nat) (enabled : Bool) (st : PTState)
    (x : (Str × Str × Str) × List Nat) (i : Nat) (hi : i ∈ st.rejects) :
    i ∈ (ptProcessIssue di enabled st x).rejects := by
  rcases hg : get_playing_time_choice enabled st.store x.1.1 x.1.2.1 x.1.2.2 with ⟨a?, rt⟩
  unfold ptProcessIssue
  dsimp only
  rw [hg]
  repeat' split
  all_goals simp [hi]

/-- A recalled issue step prompts nothing and leaves the store, the response
stream and the abort flag untouched. -/
theorem ptProcessIssue_recalled (di : Nat) (enabled : Bool) (st : PTState)
    (x : (Str × Str × Str) × List Nat)
    (h : (get_playing_time_choice enabled st.store x.1.1 x.1.2.1 x.1.2.2).1.isSome) :
    (ptProcessIssue di enabled st x).sessions = st.sessions ∧
    (ptProcessIssue di enabled st x).responses = st.responses ∧
    (ptProcessIssue di enabled st x).store = st.store ∧
    (ptProcessIssue di enabled st x).aborted = st.aborted := by
  rcases hg : get_playing_time_choice enabled st.store x.1.1 x.1.2.1 x.1.2.2 with ⟨a?, rt⟩
  cases a? with
  | none => rw [hg] at h; simp at h
  | some a =>
    unfold ptProcessIssue
    dsimp only
    rw [hg]
    cases hab : st.aborted
    · cases a <;> cases rt <;> simp [hab]
    · simp [hab]

/-- A recalled reject appends exactly the issue's indices to the reject set
(when processing has not aborted). -/
theorem ptProcessIssue_recalled_reject (di : Nat) (enabled : Bool) (st : PTState)
    (x : (Str × Str × Str) × List Nat) (rt : Option Str)
    (hab : st.aborted = false)
    (hg : get_playing_time_choice enabled st.store x.1.1 x.1.2.1 x.1.2.2 =
      (some PTAction.reject, rt)) :
    (ptProcessIssue di enabled st x).rejects = st.rejects ++ x.2 := by
  unfold ptProcessIssue
  dsimp only
  rw [hg]
  simp [hab]

/-- Folding the issue loop adds at most one session per issue. -/
theorem foldl_sessions_le (di : Nat) (enabled : Bool) :
    ∀ (issues : List ((Str × Str × Str) × List Nat)) (st : PTState),
    (issues.foldl (ptProcessIssue di enabled) st).sessions ≤
      st.sessions + issues.length := by
  intro issues
  induction issues with
  | nil => intro st; simp
  | cons x xs ih =>
    intro st
    have h1 := ih (ptProcessIssue di enabled st x)
    have h2 := ptProcessIssue_sessions_le di enabled st x
    simp only [List.foldl_cons, List.length_cons]
    omega

/-- Folding the issue loop never drops a reject index. -/
theorem foldl_rejects_mono (di : Nat) (enabled : Bool) :
    ∀ (issues : List ((Str × Str × Str) × List Nat)) (st : PTState) (i : Nat),
    i ∈ st.rejects → i ∈ (issues.foldl (ptProcessIssue di enabled) st).rejects := by
  intro issues
  induction issues with
  | nil => intro st i hi; simpa using hi
  | cons x xs ih =>
    intro st i hi
    simp only [List.foldl_cons]
    exact ih _ i (ptProcessIssue_rejects_mono di enabled st x i hi)

/-- When every issue's key is remembered in the store, the fold prompts
nothing, consumes no responses, leaves the store untouched, and auto-applies
every remembered reject to all of its issue's indices. -/
theorem foldl_all_recalled (di : Nat) (enabled : Bool) (store0 : PTStore) :
    ∀ (issues : List ((Str × Str × Str) × List Nat)) (st : PTState),
    st.store = store0 → st.aborted = false →
    (∀ x ∈ issues,
      (get_playing_time_choice enabled store0 x.1.1 x.1.2.1 x.1.2.2).1.isSome) →
    (issues.foldl (ptProcessIssue di enabled) st).sessions = st.sessions ∧
    (issues.foldl (ptProcessIssue di enabled) st).responses = st.responses ∧
    (issues.foldl (ptProcessIssue di enabled) st).store = store0 ∧
    (issues.foldl (ptProcessIssue di enabled) st).aborted = false ∧
    (∀ x ∈ issues,
      (get_playing_time_choice enabled store0 x.1.1 x.1.2.1 x.1.2.2).1 =
        some PTAction.reject →
      ∀ i ∈ x.2, i ∈ (issues.foldl (ptProcessIssue di enabled) st).rejects) := by
  intro issues
  induction issues with
  | nil =>
    intro st hs hab _
    refine ⟨rfl, rfl, hs, hab, ?_⟩
    intro x hx
    simp at hx
  | cons x xs ih =>
    intro st hs hab hrec
    have hx : (get_playing_time_choice enabled store0 x.1.1 x.1.2.1 x.1.2.2).1.isSome :=
      hrec x (List.mem_cons_self x xs)
    have hx' : (get_playing_time_choice enabled st.store x.1.1 x.1.2.1 x.1.2.2).1.isSome := by
      rw [hs]; exact hx
    have hstep := ptProcessIssue_recalled di enabled st x hx'
    have hrest := ih (ptProcessIssue di enabled st x)
      (hstep.2.2.1.trans hs) (hstep.2.2.2.trans hab)
      (fun y hy => hrec y (List.mem_cons_of_mem x hy))
    simp only [List.foldl_cons]
    refine ⟨hrest.1.trans hstep.1, hrest.2.1.trans hstep.2.1, hrest.2.2.1,
      hrest.2.2.2.1, ?_⟩
    intro y hy hrej i hiy
    rcases List.mem_cons.mp hy with hyx | hyxs
    · subst hyx
      rcases hgy : get_playing_time_choice enabled st.store y.1.1 y.1.2.1 y.1.2.2 with ⟨a?, rt⟩
      have ha : a? = some PTAction.reject := by
        have := hgy
        rw [hs] at this
        rw [this] at hrej
        exact hrej
      subst ha
      have happ := ptProcessIssue_recalled_reject di enabled st y rt hab hgy
      apply foldl_rejects_mono
      rw [happ]
      exact List.mem_append_right _ hiy
    · exact hrest.2.2.2.2 y hyxs hrej i hiy

/-- C3: the long-playing-time decision flow starts at most one interactive
prompt session per unique anomaly key (the grouped issues have
pairwise-distinct keys, so their count is the number K of distinct keys);
and when every key's decision is remembered in the store, the flow prompts
zero times, consumes no responses, and auto-applies every remembered reject
to all of that key's line indices. -/
theorem decision_flow_prompt_bound (overThr longThr : Int) (ti ai di : Nat)
    (enabled : Bool) (store : PTStore) (responses lines : List Str) :
    ((groupIssues (ptIssueKey overThr longThr ti ai di) lines).map Prod.fst).Nodup ∧
    (check_long_playing_times overThr longThr ti ai di enabled store responses
      lines).sessions ≤
      (groupIssues (ptIssueKey overThr longThr ti ai di) lines).length ∧
    ((∀ x ∈ groupIssues (ptIssueKey overThr longThr ti ai di) lines,
        (get_playing_time_choice enabled store x.1.1 x.1.2.1 x.1.2.2).1.isSome) →
      (check_long_playing_times overThr longThr ti ai di enabled store responses
        lines).sessions = 0 ∧
      (check_long_playing_times overThr longThr ti ai di enabled store responses
        lines).responses = responses ∧
      (∀ x ∈ groupIssues (ptIssueKey overThr longThr ti ai di) lines,
        (get_playing_time_choice enabled store x.1.1 x.1.2.1 x.1.2.2).1 =
          some PTAction.reject →
        ∀ i ∈ x.2,
          i ∈ (check_long_playing_times overThr longThr ti ai di enabled store
            responses lines).rejects)) := by
  refine ⟨groupIssues_keys_nodup _ lines, ?_, ?_⟩
  · unfold check_long_playing_times
    have h := foldl_sessions_le di enabled
      (groupIssues (ptIssueKey overThr longThr ti ai di) lines)
      ⟨lines, [], store, responses, 0, false⟩
    simpa using h
  · intro hall
    unfold check_long_playing_times
    have h := foldl_all_recalled di enabled store
      (groupIssues (ptIssueKey overThr longThr ti ai di) lines)
      ⟨lines, [], store, responses, 0, false⟩ rfl rfl hall
    exact ⟨h.1, h.2.1, h.2.2.2.2⟩

/-- Witness for C3 on a concrete one-line input whose key is remembered as a
reject: zero prompt sessions and the line index auto-rejected. -/
theorem decision_flow_prompt_bound_witness :
    (check_long_playing_times 1400 30 0 1 2 true
      [(make_key (S "Song") (S "Band"), (PTAction.reject, none))] []
      [S "Song;Band;999:00"]).sessions = 0 ∧
    0 ∈ (check_long_playing_times 1400 30 0 1 2 true
      [(make_key (S "Song") (S "Band"), (PTAction.reject, none))] []
      [S "Song;Band;999:00"]).rejects := by
  have h := (decision_flow_prompt_bound 1400 30 0 1 2 true
    [(make_key (S "Song") (S "Band"), (PTAction.reject, none))] []
    [S "Song;Band;999:00"]).2.2 (by decide)
  exact ⟨h.1, h.2.2 ((S "Song", S "Band", S "999:00"), [0]) (by decide)
    (by decide) 0 (by decide)⟩

/-! ## Claim C5: handling of invalid prompt input -/

/-- Counterexample to C5 as stated: in the artist/title prompt flow the input
`"zzz"` matches no configured option key or alias, yet it is accepted as a
skip decision — remembered in the store and counted, with no re-prompt (a
single prompt consumed the whole response stream and processing finished
without aborting). -/
theorem invalid_input_accepted_cex :
    parseATResponse (S "zzz") = ATAction.skip ∧
    normResp (S "zzz") ∉ [S "y", S "yes", S "n", S "no", S "x", S "reject", S ""] ∧
    (artist_title_section ';' 0 1 (fun _ => false) true [] [S "zzz"]
      [S "Song - Edit;Band"]).2.store =
      [(make_key (S "Song - Edit") (S "Band"), ATAction.skip)] ∧
    (artist_title_section ';' 0 1 (fun _ => false) true [] [S "zzz"]
      [S "Song - Edit;Band"]).2.prompts = 1 ∧
    (artist_title_section ';' 0 1 (fun _ => false) true [] [S "zzz"]
      [S "Song - Edit;Band"]).2.aborted = false := by decide

/-- C5 (amended): the long-playing-time prompt loop and the generic
`DecisionManager` never accept an unconfigured input — they re-prompt with
the state otherwise unchanged; but the artist/title prompt of `read_files`
treats every input outside y/yes/empty/x/reject as a skip decision, and the
duplicates prompt treats every input outside r/reject as keep. -/
theorem invalid_input_amended :
    (∀ (resp : Str) (rest : List Str),
      normResp resp ∉ [S "a", S "accept", S "", S "r", S "reject", S "e", S "edit"] →
      ptPromptLoop (resp :: rest) =
        ((ptPromptLoop rest).1, PTEvent.base :: (ptPromptLoop rest).2)) ∧
    (∀ (cfg : DecisionConfig) (handler : Option (Str → Option (Option Str)))
        (resp : Str) (rest : List Str),
      parse_response cfg resp = none →
      prompt_user cfg handler (resp :: rest) = prompt_user cfg handler rest) ∧
    (∀ resp : Str, normResp resp ∉ [S "y", S "yes", S "", S "x", S "reject"] →
      parseATResponse resp = ATAction.skip) ∧
    (∀ resp : Str, normResp resp ∉ [S "r", S "reject"] →
      parseDupResponse resp = false) := by
  refine ⟨?_, ?_, ?_, ?_⟩
  · intro resp rest h
    simp only [List.mem_cons, List.not_mem_nil, or_false, not_or] at h
    obtain ⟨h1, h2, h3, h4, h5, h6, h7⟩ := h
    rw [ptPromptLoop.eq_def]
    dsimp only
    rw [if_neg (by rintro (hc | hc | hc); exacts [h1 hc, h2 hc, h3 hc])]
    rw [if_neg (by rintro (hc | hc); exacts [h4 hc, h5 hc])]
    rw [if_neg (by rintro (hc | hc); exacts [h6 hc, h7 hc])]
  · intro cfg handler resp rest h
    simp [prompt_user, h]
  · intro resp h
    simp only [List.mem_cons, List.not_mem_nil, or_false, not_or] at h
    obtain ⟨h1, h2, h3, h4, h5⟩ := h
    unfold parseATResponse
    rw [if_neg (by rintro (hc | hc | hc); exacts [h1 hc, h2 hc, h3 hc])]
    rw [if_neg (by rintro (hc | hc); exacts [h4 hc, h5 hc])]
  · intro resp h
    simp only [List.mem_cons, List.not_mem_nil, or_false, not_or] at h
    simp [parseDupResponse, h.1, h.2]

/-- Witness for C5 (amended) at the concrete invalid input `"zzz"`. -/
theorem invalid_input_amended_witness :
    ptPromptLoop [S "zzz"] = ((ptPromptLoop []).1, PTEvent.base :: (ptPromptLoop []).2) ∧
    prompt_user LONG_TIME_CONFIG none [S "zzz"] = prompt_user LONG_TIME_CONFIG none [] ∧
    parseATResponse (S "zzz") = ATAction.skip ∧
    parseDupResponse (S "zzz") = false :=
  ⟨invalid_input_amended.1 (S "zzz") [] (by decide),
   invalid_input_amended.2.1 LONG_TIME_CONFIG none (S "zzz") [] (by decide),
   invalid_input_amended.2.2.1 (S "zzz") (by decide),
   invalid_input_amended.2.2.2 (S "zzz") (by decide)⟩

/-! ## Claim C6: validation failure of the edited time -/

/-- Counterexample to C6 as stated: choosing edit and then entering the
invalid time `"bad"` produces the prompt trace base, timeEdit, base — the
base accept/reject/edit choice is re-asked after the failed validation (the
third response is consumed by the base prompt, which parses it as accept),
rather than re-prompting for the time value only. -/
theorem edit_reprompt_cex :
    ptPromptLoop [S "e", S "bad", S "a"] =
      (some (PTRes.accept, []), [PTEvent.base, PTEvent.timeEdit, PTEvent.base]) ∧
    validTime (pyStrip (S "bad")) = false := by decide

/-- An edited time returned by the prompt loop always passed validation. -/
theorem ptPromptLoop_edit_valid :
    ∀ (n : Nat) (responses : List Str), responses.length ≤ n →
    ∀ (tv : Str) (rest : List Str),
      (ptPromptLoop responses).1 = some (PTRes.edit tv, rest) →
      validTime tv = true := by
  intro n
  induction n with
  | zero =>
    intro responses hlen tv rest h
    have hnil : responses = [] := List.eq_nil_of_length_eq_zero (Nat.le_zero.mp hlen)
    subst hnil
    simp [ptPromptLoop] at h
  | succ n ih =>
    intro responses hlen tv rest h
    cases responses with
    | nil => simp [ptPromptLoop] at h
    | cons resp rs =>
      unfold ptPromptLoop at h
      dsimp only at h
      by_cases c1 : normResp resp = S "a" ∨ normResp resp = S "accept" ∨
          normResp resp = []
      · rw [if_pos c1] at h; simp at h
      · rw [if_neg c1] at h
        by_cases c2 : normResp resp = S "r" ∨ normResp resp = S "reject"
        · rw [if_pos c2] at h; simp at h
        · rw [if_neg c2] at h
          by_cases c3 : normResp resp = S "e" ∨ normResp resp = S "edit"
          · rw [if_pos c3] at h
            cases rs with
            | nil => simp at h
            | cons t rs2 =>
              dsimp only at h
              by_cases cv : validTime (pyStrip t) = true
              · rw [if_pos cv] at h
                simp only [Option.some.injEq, Prod.mk.injEq, PTRes.edit.injEq] at h
                rw [← h.1]
                exact cv
              · rw [if_neg cv] at h
                exact ih rs2 (by simp at hlen; omega) tv rest h
          · rw [if_neg c3] at h
            exact ih rs (by simp at hlen; omega) tv rest h

/-- C6 (amended): a validation failure on the edited time loops back to the
base accept/reject/edit prompt (the base choice is re-asked); the invalid
value itself is never accepted — every edit decision that the loop returns
carries a value that passed validation.  The generic `DecisionManager`
behaves the same way: a retry signal from the extra-input handler restarts
at the base prompt. -/
theorem edit_extra_input_amended :
    (∀ (resp t : Str) (rest2 : List Str),
      (normResp resp = S "e" ∨ normResp resp = S "edit") →
      validTime (pyStrip t) = false →
      ptPromptLoop (resp :: t :: rest2) =
        ((ptPromptLoop rest2).1,
          PTEvent.base :: PTEvent.timeEdit :: (ptPromptLoop rest2).2)) ∧
    (∀ (responses : List Str) (tv : Str) (rest : List Str),
      (ptPromptLoop responses).1 = some (PTRes.edit tv, rest) →
      validTime tv = true) ∧
    (∀ (cfg : DecisionConfig) (h : Str → Option (Option Str)) (resp : Str)
        (rest : List Str) (action : Str),
      parse_response cfg resp = some action → h action = none →
      prompt_user cfg (some h) (resp :: rest) = prompt_user cfg (some h) rest) := by
  refine ⟨?_, ?_, ?_⟩
  · intro resp t rest2 hre hval
    rw [ptPromptLoop.eq_def]
    dsimp only
    rcases hre with he | he <;> rw [he] <;>
      rw [if_neg (by decide), if_neg (by decide), if_pos (by decide)] <;>
      rw [if_neg (by simp [hval])]
  · intro responses tv rest h
    exact ptPromptLoop_edit_valid responses.length responses le_rfl tv rest h
  · intro cfg h resp rest action hp hh
    simp [prompt_user, hp, hh]

/-- Witness for C6 (amended) at concrete inputs. -/
theorem edit_extra_input_amended_witness :
    ptPromptLoop [S "e", S "bad", S "a"] =
      ((ptPromptLoop [S "a"]).1,
        PTEvent.base :: PTEvent.timeEdit :: (ptPromptLoop [S "a"]).2) ∧
    validTime (S "7:7") = true ∧
    prompt_user LONG_TIME_CONFIG (some (fun _ => none)) [S "a", S "r"] =
      prompt_user LONG_TIME_CONFIG (some (fun _ => none)) [S "r"] :=
  ⟨edit_extra_input_amended.1 (S "e") (S "bad") [S "a"] (by decide) (by decide),
   edit_extra_input_amended.2.1 [S "e", S "7:7"] (S "7:7") [] (by decide),
   edit_extra_input_amended.2.2 LONG_TIME_CONFIG (fun _ => none) (S "a") [S "r"]
     (S "accept") (by decide) rfl⟩

/-- Packing a small codepoint keeps its value. -/
theorem char_toNat_ofNat_valid (n : Nat) (h : n.isValidChar) :
    (Char.ofNat n).toNat = n := by
  unfold Char.ofNat
  rw [dif_pos h]
  rfl

/-- ASCII lowercasing does not change whether a character is whitespace. -/
theorem isWs_toLower (c : Char) : isWs (Char.toLower c) = isWs c := by
  unfold Char.toLower
  dsimp only
  by_cases h : c.toNat ≥ 65 ∧ c.toNat ≤ 90
  · rw [if_pos h]
    have hval : (Char.ofNat (c.toNat + 32)).toNat = c.toNat + 32 :=
      char_toNat_ofNat_valid _ (Or.inl (by omega))
    have hL : isWs (Char.ofNat (c.toNat + 32)) = false := by
      simp only [isWs, hval, Bool.or_eq_false_iff, decide_eq_false_iff_not]
      omega
    have hR : isWs c = false := by
      simp only [isWs, Bool.or_eq_false_iff, decide_eq_false_iff_not]
      omega
    rw [hL, hR]
  · rw [if_neg h]

/-- Stripping commutes with lowercasing. -/
theorem pyStrip_pyLower_comm (s : Str) :
    pyStrip (pyLower s) = pyLower (pyStrip s) := by
  have hfun : isWs ∘ Char.toLower = isWs := funext isWs_toLower
  unfold pyStrip pyLower
  rw [List.dropWhile_map, hfun, List.reverse_map, List.dropWhile_map, hfun,
    List.reverse_map]

/-- Membership in the occurrence list of a key. -/
theorem mem_dupOcc (ti ai di : Nat) (lines : List Str) (k : Str × Str × Str)
    (n i : Nat) :
    i ∈ dupOcc ti ai di lines k n ↔ i < n ∧ dupKeyAt ti ai di lines i = some k := by
  simp [dupOcc, List.mem_filter, List.mem_range]

/-- The occurrence list grows at the right end. -/
theorem dupOcc_succ (ti ai di : Nat) (lines : List Str) (k : Str × Str × Str)
    (n : Nat) :
    dupOcc ti ai di lines k (n + 1) =
      dupOcc ti ai di lines k n ++
        (if dupKeyAt ti ai di lines n = some k then [n] else []) := by
  unfold dupOcc
  rw [List.range_succ, List.filter_append]
  congr 1
  by_cases h : dupKeyAt ti ai di lines n = some k <;> simp [h]

/-- Occurrence lists are strictly increasing. -/
theorem dupOcc_pairwise (ti ai di : Nat) (lines : List Str) (k : Str × Str × Str)
    (n : Nat) : (dupOcc ti ai di lines k n).Pairwise (· < ·) :=
  (List.pairwise_lt_range n).filter _

/-- A successful dict lookup is a member of the association list. -/
theorem dictGet_mem {α β : Type} [DecidableEq α] (k : α) (v : β) :
    ∀ (l : List (α × β)), dictGet k l = some v → (k, v) ∈ l := by
  intro l
  induction l with
  | nil => intro h; simp [dictGet] at h
  | cons p t ih =>
    rcases p with ⟨pk, pv⟩
    intro h
    by_cases hk : k = pk
    · rw [dictGet, if_pos hk] at h
      injection h with h
      subst h
      subst hk
      exact List.mem_cons_self _ _
    · rw [dictGet, if_neg hk] at h
      exact List.mem_cons_of_mem _ (ih h)

/-- With pairwise-distinct keys, every entry is found by lookup. -/
theorem mem_dictGet_of_nodup {α β : Type} [DecidableEq α] (k : α) (v : β)
    (l : List (α × β)) (hn : (l.map Prod.fst).Nodup) (h : (k, v) ∈ l) :
    dictGet k l = some v := by
  induction l with
  | nil => simp at h
  | cons p t ih =>
    simp only [List.map_cons, List.nodup_cons] at hn
    rcases List.mem_cons.mp h with he | ht
    · rw [← he, dictGet, if_pos rfl]
    · have hk : k ≠ p.1 := by
        intro e
        apply hn.1
        have : (k, v).1 ∈ t.map Prod.fst := List.mem_map_of_mem Prod.fst ht
        rw [← e]
        exact this
      rw [dictGet, if_neg hk]
      exact ih hn.2 ht

/-- Membership in a fold that appends the tail of every group. -/
theorem mem_foldl_append_drop (i : Nat) :
    ∀ (l : List ((Str × Str × Str) × List Nat)) (acc : List Nat),
    (i ∈ l.foldl (fun acc kl => acc ++ kl.2.drop 1) acc ↔
      i ∈ acc ∨ ∃ kl ∈ l, i ∈ kl.2.drop 1) := by
  intro l
  induction l with
  | nil => intro acc; simp
  | cons x xs ih =>
    intro acc
    rw [List.foldl_cons, ih]
    simp only [List.mem_append, List.mem_cons]
    constructor
    · rintro ((h | h) | ⟨kl, hkl, h⟩)
      · exact Or.inl h
      · exact Or.inr ⟨x, Or.inl rfl, h⟩
      · exact Or.inr ⟨kl, Or.inr hkl, h⟩
    · rintro (h | ⟨kl, hkl | hkl, h⟩)
      · exact Or.inl (Or.inl h)
      · exact Or.inl (Or.inr (hkl ▸ h))
      · exact Or.inr ⟨kl, hkl, h⟩

/-- For a strictly increasing list, the elements after the head are exactly
the members with an earlier member below them. -/
theorem mem_drop_one_of_pairwise (l : List Nat) (hp : l.Pairwise (· < ·))
    (i : Nat) : i ∈ l.drop 1 ↔ i ∈ l ∧ ∃ j ∈ l, j < i := by
  cases l with
  | cons h t =>
    rw [List.pairwise_cons] at hp
    simp only [List.drop_succ_cons, List.drop_zero, List.mem_cons]
    constructor
    · intro hit
      exact ⟨Or.inr hit, h, Or.inl rfl, hp.1 i hit⟩
    · rintro ⟨hi | hi, j, hj | hj, hji⟩
      · exfalso; subst hi; subst hj; omega
      · exfalso; subst hi; have := hp.1 j hj; omega
      · exact hi
      · exact hi
  | nil => simp

/-- One scan step preserves the invariant. -/
theorem dupScanStep_inv (ti ai di : Nat) (lines : List Str) (n : Nat)
    (st : DupState) (hinv : DupInv ti ai di lines n st) :
    DupInv ti ai di lines (n + 1) (dupScanStep ti ai di st (n, lines.getD n [])) := by
  obtain ⟨hnd, hseen, hdups⟩ := hinv
  cases hk0 : dupLineKey ti ai di (lines.getD n []) with
  | none =>
    have hstep : dupScanStep ti ai di st (n, lines.getD n []) = st := by
      unfold dupScanStep
      dsimp only
      rw [hk0]
    rw [hstep]
    refine ⟨hnd, ?_, ?_⟩
    · intro k
      rw [hseen k, dupOcc_succ]
      rw [show dupKeyAt ti ai di lines n = dupLineKey ti ai di (lines.getD n []) from rfl,
        hk0]
      simp
    · intro k
      rw [hdups k, dupOcc_succ]
      rw [show dupKeyAt ti ai di lines n = dupLineKey ti ai di (lines.getD n []) from rfl,
        hk0]
      simp
  | some k0 =>
    have hkeyat : dupKeyAt ti ai di lines n = some k0 := hk0
    cases hfirst : dictGet k0 st.seen with
    | some first =>
      have hstep : dupScanStep ti ai di st (n, lines.getD n []) =
          { st with
            dups := dictInsert k0 ((dictGet k0 st.dups).getD [first] ++ [n]) st.dups } := by
        unfold dupScanStep
        dsimp only
        rw [hk0]
        dsimp only
        rw [hfirst]
      rw [hstep]
      have hocc : (dupOcc ti ai di lines k0 n).head? = some first := by
        rw [← hseen k0]; exact hfirst
      have hoccne : dupOcc ti ai di lines k0 n ≠ [] := by
        intro e; rw [e] at hocc; simp at hocc
      refine ⟨keys_nodup_dictInsert _ _ _ hnd, ?_, ?_⟩
      · intro k
        rw [hseen k, dupOcc_succ]
        by_cases hkk : k = k0
        · subst hkk
          rw [hkeyat, if_pos rfl,
            List.head?_append_of_ne_nil (dupOcc ti ai di lines k n) hoccne]
        · rw [if_neg (by intro hc; rw [hkeyat] at hc; injection hc with e; exact hkk e.symm)]
          simp
      · intro k
        by_cases hkk : k = k0
        · subst hkk
          rw [dictGet_dictInsert_self, dupOcc_succ, hkeyat, if_pos rfl]
          cases hgd : dictGet k st.dups with
          | some l =>
            have hthis := hdups k
            rw [hgd] at hthis
            by_cases h2 : 2 ≤ (dupOcc ti ai di lines k n).length
            · rw [if_pos h2] at hthis
              injection hthis with hl
              rw [if_pos (by rw [List.length_append]; omega)]
              simp [hl]
            · rw [if_neg h2] at hthis
              simp at hthis
          | none =>
            have hthis := hdups k
            rw [hgd] at hthis
            have h2 : ¬ 2 ≤ (dupOcc ti ai di lines k n).length := by
              by_contra hc
              rw [if_pos hc] at hthis
              simp at hthis
            have hone : dupOcc ti ai di lines k n = [first] := by
              cases hc : dupOcc ti ai di lines k n with
              | nil => exact absurd hc hoccne
              | cons a t =>
                cases t with
                | nil =>
                  rw [hc] at hocc
                  simp only [List.head?_cons, Option.some.injEq] at hocc
                  rw [hocc]
                | cons b t2 =>
                  exfalso
                  rw [hc] at h2
                  simp at h2
            rw [hone]
            simp
        · have hite : (if dupKeyAt ti ai di lines n = some k then [n] else ([] : List Nat)) = [] :=
            if_neg (by intro hc; rw [hkeyat] at hc; injection hc with e; exact hkk e.symm)
          rw [dictGet_dictInsert_ne k k0 _ _ hkk, hdups k, dupOcc_succ, hite]
          simp
    | none =>
      have hstep : dupScanStep ti ai di st (n, lines.getD n []) =
          { st with seen := dictInsert k0 n st.seen } := by
        unfold dupScanStep
        dsimp only
        rw [hk0]
        dsimp only
        rw [hfirst]
      rw [hstep]
      have hocc : (dupOcc ti ai di lines k0 n).head? = none := by
        rw [← hseen k0]; exact hfirst
      have hoccnil : dupOcc ti ai di lines k0 n = [] := by
        cases hc : dupOcc ti ai di lines k0 n with
        | nil => rfl
        | cons a t => rw [hc] at hocc; simp at hocc
      refine ⟨hnd, ?_, ?_⟩
      · intro k
        by_cases hkk : k = k0
        · subst hkk
          rw [dictGet_dictInsert_self, dupOcc_succ, hkeyat, if_pos rfl, hoccnil]
          simp
        · rw [dictGet_dictInsert_ne k k0 _ _ hkk, hseen k, dupOcc_succ,
            if_neg (by intro hc; rw [hkeyat] at hc; injection hc with e; exact hkk e.symm)]
          simp
      · intro k
        by_cases hkk : k = k0
        · subst hkk
          rw [hdups k, dupOcc_succ, hkeyat, if_pos rfl, hoccnil]
          simp
        · have hite : (if dupKeyAt ti ai di lines n = some k then [n] else ([] : List Nat)) = [] :=
            if_neg (by intro hc; rw [hkeyat] at hc; injection hc with e; exact hkk e.symm)
          rw [hdups k, dupOcc_succ, hite]
          simp

/-- The scan over the suffix starting at index `j` preserves the invariant. -/
theorem dupScan_fold_inv (ti ai di : Nat) (lines : List Str) :
    ∀ (l : List Str) (j : Nat) (st : DupState), lines.drop j = l →
    DupInv ti ai di lines j st →
    DupInv ti ai di lines (j + l.length)
      ((l.enumFrom j).foldl (dupScanStep ti ai di) st) := by
  intro l
  induction l with
  | nil => intro j st _ hinv; simpa using hinv
  | cons x xs ih =>
    intro j st hdrop hinv
    have h1 : lines[j]? = some x := by
      have h2 := List.getElem?_drop lines j 0
      rw [hdrop] at h2
      simpa using h2.symm
    have hx : lines.getD j [] = x := by
      rw [List.getD_eq_getElem?_getD, h1]
      rfl
    have hdrop2 : lines.drop (j + 1) = xs := by
      have h3 := List.drop_drop 1 j lines
      rw [hdrop] at h3
      simpa using h3.symm
    have hstep := dupScanStep_inv ti ai di lines j st hinv
    rw [hx] at hstep
    have hrest := ih (j + 1) (dupScanStep ti ai di st (j, x)) hdrop2 hstep
    rw [List.enumFrom_cons, List.foldl_cons]
    rw [show j + (x :: xs).length = (j + 1) + xs.length by simp; omega]
    exact hrest

/-- The completed scan satisfies the invariant at the full length. -/
theorem dupScan_final (ti ai di : Nat) (lines : List Str) :
    DupInv ti ai di lines lines.length
      (lines.enum.foldl (dupScanStep ti ai di) ⟨[], []⟩) := by
  have hinit : DupInv ti ai di lines 0 ⟨[], []⟩ := by
    refine ⟨by simp, ?_, ?_⟩ <;> intro k <;> simp [dictGet, dupOcc]
  have h := dupScan_fold_inv ti ai di lines lines 0 ⟨[], []⟩ (by simp) hinit
  simpa [List.enum] using h

/-- A line beyond the list (or the empty line) has no duplicate key. -/
theorem dupKeyAt_lt_length (ti ai di : Nat) (lines : List Str) (i : Nat)
    (k : Str × Str × Str) (h : dupKeyAt ti ai di lines i = some k) :
    i < lines.length := by
  by_contra hge
  rw [dupKeyAt, List.getD_eq_getElem?_getD,
    List.getElem?_eq_none (Nat.le_of_not_lt hge)] at h
  simp [dupLineKey, pyStrip] at h

/-- Two members of a strictly increasing list with one below the other give
it at least two elements. -/
theorem two_le_length_of_mem_lt (l : List Nat) (hp : l.Pairwise (· < ·))
    (i j : Nat) (hi : i ∈ l) (hj : j ∈ l) (hji : j < i) : 2 ≤ l.length := by
  cases l with
  | nil => simp at hi
  | cons a t =>
    cases t with
    | nil =>
      simp at hi hj
      omega
    | cons b t2 => simp

/-- The reject-policy result of `check_duplicates`, made explicit. -/
theorem check_duplicates_reject_eq (ti ai di : Nat) (responses lines : List Str) :
    check_duplicates true DupAction.reject ti ai di responses lines =
      (lines,
        if (lines.enum.foldl (dupScanStep ti ai di) ⟨[], []⟩).dups = [] then []
        else (lines.enum.foldl (dupScanStep ti ai di) ⟨[], []⟩).dups.foldl
          (fun acc kl => acc ++ kl.2.drop 1) []) := by
  unfold check_duplicates
  rw [if_neg (by simp)]
  by_cases hde : (lines.enum.foldl (dupScanStep ti ai di) ⟨[], []⟩).dups = []
  · rw [if_pos hde, if_pos hde]
  · rw [if_neg hde, if_neg hde]

/-! ## Claim C8: duplicate detection under the reject policy -/

/-- C8: two well-formed lines whose title and artist agree case-insensitively
and whose date fields agree fall under one issue key; and under the reject
policy the line list is returned unmodified while the reject set holds
exactly the occurrences with an earlier same-key occurrence — every group
keeps its first occurrence by index order and rejects the rest. -/
theorem duplicates_reject_spec (ti ai di : Nat) (responses lines : List Str) :
    (check_duplicates true DupAction.reject ti ai di responses lines).1 = lines ∧
    (∀ i : Nat,
      i ∈ (check_duplicates true DupAction.reject ti ai di responses lines).2 ↔
      ∃ k, dupKeyAt ti ai di lines i = some k ∧
        ∃ j, j < i ∧ dupKeyAt ti ai di lines j = some k) ∧
    (∀ la lb : Str, pyStrip la ≠ [] → pyStrip lb ≠ [] →
      max ti (max ai di) < (splitChar ';' la).length →
      max ti (max ai di) < (splitChar ';' lb).length →
      pyLower ((splitChar ';' la).getD ti []) =
        pyLower ((splitChar ';' lb).getD ti []) →
      pyLower ((splitChar ';' la).getD ai []) =
        pyLower ((splitChar ';' lb).getD ai []) →
      (splitChar ';' la).getD di [] = (splitChar ';' lb).getD di [] →
      dupLineKey ti ai di la = dupLineKey ti ai di lb ∧
        (dupLineKey ti ai di la).isSome) := by
  obtain ⟨hnd, hseen, hdups⟩ := dupScan_final ti ai di lines
  rw [check_duplicates_reject_eq ti ai di responses lines]
  refine ⟨rfl, ?_, ?_⟩
  · intro i
    have hchar : ∀ stf : DupState,
        stf = lines.enum.foldl (dupScanStep ti ai di) ⟨[], []⟩ →
        (i ∈ stf.dups.foldl (fun acc kl => acc ++ kl.2.drop 1) [] ↔
          ∃ k, dupKeyAt ti ai di lines i = some k ∧
            ∃ j, j < i ∧ dupKeyAt ti ai di lines j = some k) := by
      intro stf hstf
      rw [mem_foldl_append_drop]
      simp only [List.not_mem_nil, false_or]
      constructor
      · rintro ⟨kl, hkl, hi⟩
        have hget : dictGet kl.1 stf.dups = some kl.2 :=
          mem_dictGet_of_nodup kl.1 kl.2 stf.dups (hstf ▸ hnd)
            (by rw [← Prod.mk.eta (p := kl)] at hkl; exact hkl)
        have hkl2 : kl.2 = dupOcc ti ai di lines kl.1 lines.length := by
          have h := hdups kl.1
          rw [← hstf] at h
          rw [hget] at h
          by_cases h2 : 2 ≤ (dupOcc ti ai di lines kl.1 lines.length).length
          · rw [if_pos h2] at h
            injection h
          · rw [if_neg h2] at h
            simp at h
        rw [hkl2] at hi
        rw [mem_drop_one_of_pairwise _ (dupOcc_pairwise ti ai di lines kl.1 _)] at hi
        obtain ⟨hiocc, j, hjocc, hji⟩ := hi
        rw [mem_dupOcc] at hiocc hjocc
        exact ⟨kl.1, hiocc.2, j, hji, hjocc.2⟩
      · rintro ⟨k, hik, j, hji, hjk⟩
        have hiN : i < lines.length := dupKeyAt_lt_length ti ai di lines i k hik
        have hjN : j < lines.length := dupKeyAt_lt_length ti ai di lines j k hjk
        have hiocc : i ∈ dupOcc ti ai di lines k lines.length :=
          (mem_dupOcc ti ai di lines k lines.length i).mpr ⟨hiN, hik⟩
        have hjocc : j ∈ dupOcc ti ai di lines k lines.length :=
          (mem_dupOcc ti ai di lines k lines.length j).mpr ⟨hjN, hjk⟩
        have h2 : 2 ≤ (dupOcc ti ai di lines k lines.length).length :=
          two_le_length_of_mem_lt _ (dupOcc_pairwise ti ai di lines k _) i j
            hiocc hjocc hji
        have hget : dictGet k stf.dups =
            some (dupOcc ti ai di lines k lines.length) := by
          have h := hdups k
          rw [← hstf] at h
          rw [h, if_pos h2]
        refine ⟨(k, dupOcc ti ai di lines k lines.length),
          dictGet_mem _ _ _ hget, ?_⟩
        rw [mem_drop_one_of_pairwise _ (dupOcc_pairwise ti ai di lines k _)]
        exact ⟨hiocc, j, hjocc, hji⟩
    by_cases hde : (lines.enum.foldl (dupScanStep ti ai di) ⟨[], []⟩).dups = []
    · rw [if_pos hde]
      simp only [List.not_mem_nil, false_iff]
      rintro ⟨k, hik, j, hji, hjk⟩
      have h := hchar (lines.enum.foldl (dupScanStep ti ai di) ⟨[], []⟩) rfl
      rw [hde] at h
      simp only [List.foldl_nil, List.not_mem_nil, false_iff] at h
      exact h ⟨k, hik, j, hji, hjk⟩
    · rw [if_neg hde]
      exact hchar _ rfl
  · intro la lb hsla hslb hlla hllb hta htb htd
    have hkla : dupLineKey ti ai di la =
        some (pyLower (pyStrip ((splitChar ';' la).getD ti [])),
          pyLower (pyStrip ((splitChar ';' la).getD ai [])),
          pyStrip ((splitChar ';' la).getD di [])) := by
      unfold dupLineKey
      rw [if_neg hsla, if_neg (Nat.not_le_of_lt hlla)]
    have hklb : dupLineKey ti ai di lb =
        some (pyLower (pyStrip ((splitChar ';' lb).getD ti [])),
          pyLower (pyStrip ((splitChar ';' lb).getD ai [])),
          pyStrip ((splitChar ';' lb).getD di [])) := by
      unfold dupLineKey
      rw [if_neg hslb, if_neg (Nat.not_le_of_lt hllb)]
    have ht : pyLower (pyStrip ((splitChar ';' la).getD ti [])) =
        pyLower (pyStrip ((splitChar ';' lb).getD ti [])) := by
      rw [← pyStrip_pyLower_comm, ← pyStrip_pyLower_comm, hta]
    have ha : pyLower (pyStrip ((splitChar ';' la).getD ai [])) =
        pyLower (pyStrip ((splitChar ';' lb).getD ai [])) := by
      rw [← pyStrip_pyLower_comm, ← pyStrip_pyLower_comm, htb]
    refine ⟨?_, by rw [hkla]; rfl⟩
    rw [hkla, hklb, ht, ha, htd]

/-- Witness for C8: two case-insensitive duplicates of index 0; index 2 is
rejected, index 0 kept, and the line list unchanged. -/
theorem duplicates_reject_spec_witness :
    (check_duplicates true DupAction.reject 0 1 2 []
      [S "Song;Band;01-01-2024", S "Other;Band;01-01-2024",
        S "SONG;band;01-01-2024"]).1 =
      [S "Song;Band;01-01-2024", S "Other;Band;01-01-2024",
        S "SONG;band;01-01-2024"] ∧
    2 ∈ (check_duplicates true DupAction.reject 0 1 2 []
      [S "Song;Band;01-01-2024", S "Other;Band;01-01-2024",
        S "SONG;band;01-01-2024"]).2 ∧
    ¬ 0 ∈ (check_duplicates true DupAction.reject 0 1 2 []
      [S "Song;Band;01-01-2024", S "Other;Band;01-01-2024",
        S "SONG;band;01-01-2024"]).2 := by
  have h := duplicates_reject_spec 0 1 2 []
    [S "Song;Band;01-01-2024", S "Other;Band;01-01-2024", S "SONG;band;01-01-2024"]
  refine ⟨h.1, ?_, ?_⟩
  · exact (h.2.1 2).mpr (by decide)
  · intro hc
    have := (h.2.1 0).mp hc
    revert this
    decide

/-- The retain-loop is the filter. -/
theorem multiYearFilter_go (di : Nat) (chosen : Str) :
    ∀ (l acc : List Str),
    l.foldl (fun acc x => if yearOfLine di x = some chosen then acc ++ [x] else acc)
      acc =
      acc ++ l.filter (fun x => decide (yearOfLine di x = some chosen)) := by
  intro l
  induction l with
  | nil => intro acc; simp
  | cons x xs ih =>
    intro acc
    rw [List.foldl_cons]
    by_cases hp : yearOfLine di x = some chosen
    · rw [if_pos hp, ih, List.filter_cons_of_pos (by simpa using hp)]
      simp
    · rw [if_neg hp, ih, List.filter_cons_of_neg (by simpa using hp)]

/-! ## Claim C1: the multiple-years filter -/

/-- C1 (spec-modelled): when the lines carry more than one distinct year and
the user chooses a single year to retain, the resulting list is exactly the
original lines whose normalized date has the chosen year: a sublist of the
original (original relative order), every survivor has the chosen year, every
chosen-year line survives, and the length is the chosen year's count. -/
theorem multi_year_filter_spec (di : Nat) (choice : YearChoice) (y : Str)
    (lines : List Str)
    (hmulti : 1 < (distinctYears di lines).length)
    (hch : choice = YearChoice.keepYear y) :
    multiYearCheck di choice lines =
      lines.filter (fun l => decide (yearOfLine di l = some y)) ∧
    (multiYearCheck di choice lines).Sublist lines ∧
    (∀ l ∈ multiYearCheck di choice lines, yearOfLine di l = some y) ∧
    (∀ l ∈ lines, yearOfLine di l = some y → l ∈ multiYearCheck di choice lines) ∧
    (multiYearCheck di choice lines).length =
      lines.countP (fun l => decide (yearOfLine di l = some y)) := by
  subst hch
  have heq : multiYearCheck di (YearChoice.keepYear y) lines =
      lines.filter (fun l => decide (yearOfLine di l = some y)) := by
    unfold multiYearCheck
    rw [if_neg (by omega)]
    dsimp only
    unfold multiYearFilter
    rw [multiYearFilter_go di y lines []]
    simp
  refine ⟨heq, ?_, ?_, ?_, ?_⟩
  · rw [heq]; exact List.filter_sublist lines
  · intro l hl
    rw [heq] at hl
    simpa using (List.mem_filter.mp hl).2
  · intro l hl hy
    rw [heq]
    exact List.mem_filter.mpr ⟨hl, by simpa using hy⟩
  · rw [heq, ← List.countP_eq_length_filter]

/-- Witness for C1 at the spec's example shape: years `{2023: 3, 2024: 7}`
and the choice keep 2024 yield exactly the 7 lines of 2024, in their
original relative order. -/
theorem multi_year_filter_spec_witness :
    multiYearCheck 0 (YearChoice.keepYear (S "2024"))
      [S "01-01-2023", S "02-01-2024", S "03-01-2024", S "04-02-2023",
        S "05-02-2024", S "06-03-2024", S "07-03-2023", S "08-04-2024",
        S "09-04-2024", S "10-05-2024"] =
      [S "02-01-2024", S "03-01-2024", S "05-02-2024", S "06-03-2024",
        S "08-04-2024", S "09-04-2024", S "10-05-2024"] ∧
    (multiYearCheck 0 (YearChoice.keepYear (S "2024"))
      [S "01-01-2023", S "02-01-2024", S "03-01-2024", S "04-02-2023",
        S "05-02-2024", S "06-03-2024", S "07-03-2023", S "08-04-2024",
        S "09-04-2024", S "10-05-2024"]).length = 7 := by
  have h := multi_year_filter_spec 0 (YearChoice.keepYear (S "2024")) (S "2024")
    [S "01-01-2023", S "02-01-2024", S "03-01-2024", S "04-02-2023",
      S "05-02-2024", S "06-03-2024", S "07-03-2023", S "08-04-2024",
      S "09-04-2024", S "10-05-2024"] (by decide) rfl
  rw [h.1]
  exact ⟨by decide, by decide⟩

end CommFmt
